import Mathlib

/-!
Verification of the layered-snapshot engine of goliatone/go-options.

The Go source dispatches clone, merge and navigation behaviour by runtime
reflection over a closed set of shapes (pointer, interface, struct, map,
slice, fixed-size array, scalar).  Here that closed set is embedded as the
tagged type `Value`: Go's `reflect.Pointer` kind becomes `vPtrNil`/`vPtr`,
nil and non-nil maps become `vMapNil`/`vMap`, nil and non-nil slices become
`vSliceNil`/`vSlice`, fixed arrays become `vArr`, structs become `vStruct`
(field name, optional json tag, value), and scalars become `vBool`, `vInt`,
`vFloat`, `vStr`.  Go interface values are represented transparently (the
dynamic value itself), with `vNull` standing both for a nil interface and
for an invalid `reflect.Value` — the two are treated identically by every
function modelled here (`mergeValue` clones the weak side for both, and
navigation fails on both).  Map keys are modelled as strings (the only key
kind the navigation/flatten code supports); struct fields model the
exported fields (the source skips unexported fields everywhere).  Machine
integers are modelled as `Int` (no overflow is exercised by any claim) and
JSON numbers as `Rat` (exact; float64 rounding is out of scope).
-/

mutual
/-- Closed set of runtime shapes the reflection-driven engine operates on
(see `layering/merge.go` and the navigation code in the options file). -/
inductive Value where
  | vNull : Value
  | vBool : Bool → Value
  | vInt : Int → Value
  | vFloat : Rat → Value
  | vStr : String → Value
  | vPtrNil : Value
  | vPtr : Value → Value
  | vMapNil : Value
  | vMap : Entries → Value
  | vSliceNil : Value
  | vSlice : Elems → Value
  | vArr : Elems → Value
  | vStruct : Fields → Value
  deriving DecidableEq

/-- Association list of string keys to values: the payload of a non-nil
Go `map[string]...` value. -/
inductive Entries where
  | nil : Entries
  | cons : String → Value → Entries → Entries
  deriving DecidableEq

/-- Element list of a non-nil slice or a fixed-size array. -/
inductive Elems where
  | nil : Elems
  | cons : Value → Elems → Elems
  deriving DecidableEq

/-- Exported struct fields: Go field name, optional `json` tag, value. -/
inductive Fields where
  | nil : Fields
  | cons : String → Option String → Value → Fields → Fields
  deriving DecidableEq
end

mutual
/-- `cloneValue` from layering/merge.go: structural deep copy.  Nil
pointers/maps/slices stay nil, containers are rebuilt element-wise,
scalars copy by value. -/
def cloneValue : Value → Value
  | .vNull => .vNull
  | .vBool b => .vBool b
  | .vInt n => .vInt n
  | .vFloat q => .vFloat q
  | .vStr s => .vStr s
  | .vPtrNil => .vPtrNil
  | .vPtr p => .vPtr (cloneValue p)
  | .vMapNil => .vMapNil
  | .vMap m => .vMap (cloneEntries m)
  | .vSliceNil => .vSliceNil
  | .vSlice l => .vSlice (cloneElems l)
  | .vArr l => .vArr (cloneElems l)
  | .vStruct fs => .vStruct (cloneFields fs)

/-- Clone of every entry of a non-nil map (the `MapRange` loop of
`cloneValue`). -/
def cloneEntries : Entries → Entries
  | .nil => .nil
  | .cons k v rest => .cons k (cloneValue v) (cloneEntries rest)

/-- Clone of every element of a slice or array. -/
def cloneElems : Elems → Elems
  | .nil => .nil
  | .cons v rest => .cons (cloneValue v) (cloneElems rest)

/-- Field-by-field clone of a struct. -/
def cloneFields : Fields → Fields
  | .nil => .nil
  | .cons n t v rest => .cons n t (cloneValue v) (cloneFields rest)
end

/-- First entry of the association list with the given key (Go map
indexing; Go maps hold each key at most once). -/
def findEntry : Entries → String → Option Value
  | .nil, _ => none
  | .cons k v rest, key => if k = key then some v else findEntry rest key

/-- `SetMapIndex`: replace the value at the key, or add the key. -/
def setEntry : Entries → String → Value → Entries
  | .nil, key, value => .cons key value .nil
  | .cons k v rest, key, value =>
      if k = key then .cons k value rest else .cons k v (setEntry rest key value)

/-- First element of an element list, or the absent value (used for
`weak.Index(i)` when the weak array is long enough, invalid otherwise). -/
def elemsHead : Elems → Value
  | .nil => .vNull
  | .cons v _ => v

/-- Tail of an element list. -/
def elemsTail : Elems → Elems
  | .nil => .nil
  | .cons _ rest => rest

/-- Value of the first field, or the absent value (used for
`weakStruct.Field(i)` when the weak struct is valid). -/
def fieldsHeadVal : Fields → Value
  | .nil => .vNull
  | .cons _ _ v _ => v

/-- Tail of a field list. -/
def fieldsTail : Fields → Fields
  | .nil => .nil
  | .cons _ _ _ rest => rest

/-- Field signature (names and tags) used to model Go's
`weak.Type() == strong.Type()` check on structs. -/
def fieldsSig : Fields → List (String × Option String)
  | .nil => []
  | .cons n t _ rest => (n, t) :: fieldsSig rest

mutual
/-- `mergeValue` from layering/merge.go.  Kind-by-kind on the strong value:
invalid/nil-interface, nil pointer, nil map and nil slice inherit a clone
of the weak value; a non-nil pointer recurses into the pointee (weak
pointee when the weak side is a non-nil pointer, absent otherwise) and
wraps the result in a fresh pointer; structs merge field-by-field (the
weak struct participates only when its type matches); a non-nil map starts
from a clone of the weak map's entries and then merges or clones every
strong key in; a non-nil slice is an element-wise clone of the strong side
only; arrays merge index-wise; scalars clone the strong side verbatim. -/
def mergeValue : Value → Value → Value
  | .vNull, weak => cloneValue weak
  | .vPtrNil, weak => cloneValue weak
  | .vPtr p, weak =>
      .vPtr (mergeValue p (match weak with | .vPtr w => w | _ => .vNull))
  | .vStruct fs, weak =>
      .vStruct (mergeFields fs (match weak with
        | .vStruct w => if fieldsSig fs = fieldsSig w then w else .nil
        | _ => .nil))
  | .vMapNil, weak => cloneValue weak
  | .vMap m, weak =>
      .vMap (mergeEntries m (match weak with | .vMap wm => cloneEntries wm | _ => .nil))
  | .vSliceNil, weak => cloneValue weak
  | .vSlice l, _ => .vSlice (cloneElems l)
  | .vArr l, weak =>
      .vArr (mergeArrElems l (match weak with | .vArr wl => wl | _ => .nil))
  | .vBool b, _ => .vBool b
  | .vInt n, _ => .vInt n
  | .vFloat q, _ => .vFloat q
  | .vStr s, _ => .vStr s
termination_by structural v _ => v

/-- The strong-side `MapRange` loop of `mergeValue`: fold the strong
entries over the accumulated result (which starts as a clone of the weak
entries), merging when the key already exists and cloning otherwise. -/
def mergeEntries : Entries → Entries → Entries
  | .nil, acc => acc
  | .cons k v rest, acc =>
      match findEntry acc k with
      | some existing => mergeEntries rest (setEntry acc k (mergeValue v existing))
      | none => mergeEntries rest (setEntry acc k (cloneValue v))
termination_by structural e _ => e

/-- Field loop of the struct case: merge each strong field with the weak
field at the same index (absent when the weak struct does not
participate). -/
def mergeFields : Fields → Fields → Fields
  | .nil, _ => .nil
  | .cons n t v rest, wfs =>
      .cons n t (mergeValue v (fieldsHeadVal wfs)) (mergeFields rest (fieldsTail wfs))
termination_by structural f _ => f

/-- Index loop of the array case: merge each strong element with the weak
element at the same index (absent when the weak array is shorter or not an
array). -/
def mergeArrElems : Elems → Elems → Elems
  | .nil, _ => .nil
  | .cons v rest, ws => .cons (mergeValue v (elemsHead ws)) (mergeArrElems rest (elemsTail ws))
termination_by structural e _ => e
end

/-- `MergeLayers` from layering/merge.go: clone the weakest layer, then
fold `mergeValue` right to left so the first (strongest) layer is merged
last.  The empty input returns Go's zero value of `T`, modelled by the
absent value. -/
def MergeLayers : List Value → Value
  | [] => .vNull
  | [l] => cloneValue l
  | l :: rest => mergeValue l (MergeLayers rest)

mutual
/-- Cloning is extensionally the identity: the Go function exists for
aliasing reasons that the pure model cannot observe. -/
theorem cloneValue_id : (v : Value) → cloneValue v = v
  | .vNull => rfl
  | .vBool _ => rfl
  | .vInt _ => rfl
  | .vFloat _ => rfl
  | .vStr _ => rfl
  | .vPtrNil => rfl
  | .vPtr p => by rw [cloneValue, cloneValue_id p]
  | .vMapNil => rfl
  | .vMap m => by rw [cloneValue, cloneEntries_id m]
  | .vSliceNil => rfl
  | .vSlice l => by rw [cloneValue, cloneElems_id l]
  | .vArr l => by rw [cloneValue, cloneElems_id l]
  | .vStruct fs => by rw [cloneValue, cloneFields_id fs]

/-- Entry cloning is extensionally the identity. -/
theorem cloneEntries_id : (m : Entries) → cloneEntries m = m
  | .nil => rfl
  | .cons k v rest => by rw [cloneEntries, cloneValue_id v, cloneEntries_id rest]

/-- Element cloning is extensionally the identity. -/
theorem cloneElems_id : (l : Elems) → cloneElems l = l
  | .nil => rfl
  | .cons v rest => by rw [cloneElems, cloneValue_id v, cloneElems_id rest]

/-- Field cloning is extensionally the identity. -/
theorem cloneFields_id : (fs : Fields) → cloneFields fs = fs
  | .nil => rfl
  | .cons n t v rest => by rw [cloneFields, cloneValue_id v, cloneFields_id rest]
end

/-- `Scope` from scope_stack.go: named precedence bucket.  Higher priority
values are stronger.  Metadata is an opaque string-keyed map; the source's
nil map and empty map are both `Entries.nil` here (the source's
`copyMetadata` normalises an empty map to nil, so the distinction is not
observable through any operation modelled by the claims). -/
structure Scope where
  name : String
  label : String
  priority : Int
  metadata : Entries
  deriving DecidableEq

/-- `copyMetadata` from scope_stack.go: returns nil for an empty map and a
shallow copy otherwise. -/
def copyMetadata : Entries → Entries
  | .nil => .nil
  | .cons k v rest => .cons k v (copyMetadata rest)

/-- `Scope.clone`: copy with the metadata map detached. -/
def cloneScope (s : Scope) : Scope :=
  { name := s.name, label := s.label, priority := s.priority,
    metadata := copyMetadata s.metadata }

/-- `NewScope(name, priority)` with no options: empty label and no
metadata (the `ScopeOption` arguments are not exercised by any claim). -/
def NewScope (name : String) (priority : Int) : Scope :=
  { name := name, label := "", priority := priority, metadata := .nil }

/-- `Layer` from scope_stack.go: a scope paired with a deep-cloned
snapshot and an opaque snapshot identifier. -/
structure LayerV where
  scope : Scope
  snapshot : Value
  snapshotID : String
  deriving DecidableEq

/-- `NewLayer(scope, snapshot, WithSnapshotID(id))`: clones the scope and
deep-clones the snapshot; the identifier is an opaque pass-through. -/
def NewLayer (scope : Scope) (snapshot : Value) (snapshotID : String) : LayerV :=
  { scope := cloneScope scope, snapshot := cloneValue snapshot, snapshotID := snapshotID }

/-- `cloneLayer` from scope_stack.go. -/
def cloneLayer (layer : LayerV) : LayerV :=
  { scope := cloneScope layer.scope, snapshot := cloneValue layer.snapshot,
    snapshotID := layer.snapshotID }

/-- Navigation failures produced by `navigateSegment` (each corresponds to
one `fmt.Errorf` in the source). -/
inductive NavError where
  | nilValue : NavError
  | nilPointer : NavError
  | segmentNotFound : NavError
  | fieldNotFound : NavError
  | nonNumericIndex : NavError
  | indexOutOfBounds : NavError
  | unsupportedType : NavError
  deriving DecidableEq

/-- Error values of the engine.  The first three model the distinguishable
sentinel errors `ErrScopeNameRequired`, `ErrDuplicateScopeName` and
`ErrPriorityOrder` (with the payload the source formats into the wrapped
message); the rest model the ad-hoc `fmt.Errorf` errors by their cause. -/
inductive OptsError where
  | scopeNameRequired : OptsError
  | duplicateScopeName : String → OptsError
  | priorityOrder : Int → OptsError
  | emptyStack : OptsError
  | emptyPath : OptsError
  | emptySegment : String → OptsError
  | cannotTraverse : String → String → NavError → OptsError
  | nilOptions : OptsError
  deriving DecidableEq

/-- Decidable equality of fallible results (used only to state and decide
concrete examples). -/
instance {e a : Type} [DecidableEq e] [DecidableEq a] : DecidableEq (Except e a)
  | .ok x, .ok y =>
      if h : x = y then .isTrue (by rw [h]) else .isFalse (by simp [h])
  | .ok _, .error _ => .isFalse (by simp)
  | .error _, .ok _ => .isFalse (by simp)
  | .error x, .error y =>
      if h : x = y then .isTrue (by rw [h]) else .isFalse (by simp [h])

/-- `Stack` from scope_stack.go: validated layers ordered strongest
(highest priority) first. -/
structure Stack where
  layers : List LayerV
  deriving DecidableEq

/-- Lexicographic comparison of character lists: Go's `<` on strings
(byte-wise on UTF-8, which orders exactly as code points do). -/
def charListLt : List Char → List Char → Bool
  | [], [] => false
  | [], _ :: _ => true
  | _ :: _, [] => false
  | a :: as, b :: bs => if a = b then charListLt as bs else decide (a < b)

/-- Go string comparison `a < b`. -/
def strLtB (a b : String) : Bool := charListLt a.data b.data

/-- Sort order used by `NewStack`'s `sort.Slice` comparator: by priority
descending, ties broken by name ascending (non-strict closure of the
source's `less`). -/
def stackRel (a b : LayerV) : Prop :=
  b.scope.priority < a.scope.priority ∨
    (a.scope.priority = b.scope.priority ∧ strLtB b.scope.name a.scope.name = false)

instance : DecidableRel stackRel := fun a b =>
  decidable_of_iff
    (b.scope.priority < a.scope.priority ∨
      (a.scope.priority = b.scope.priority ∧ strLtB b.scope.name a.scope.name = false))
    Iff.rfl

/-- The validation loop of `NewStack`: clone each layer, reject an empty
scope name, then reject a name already seen. -/
def scanNames (seen : List String) : List LayerV → Except OptsError (List LayerV)
  | [] => .ok []
  | layer :: rest =>
      let layer := cloneLayer layer
      if layer.scope.name = "" then .error .scopeNameRequired
      else if layer.scope.name ∈ seen then .error (.duplicateScopeName layer.scope.name)
      else
        match scanNames (layer.scope.name :: seen) rest with
        | .error e => .error e
        | .ok copied => .ok (layer :: copied)

/-- The post-sort check of `NewStack`: adjacent priorities must strictly
decrease; the first offender's priority is reported. -/
def checkPriorities : List LayerV → Except OptsError Unit
  | [] => .ok ()
  | [_] => .ok ()
  | a :: b :: rest =>
      if a.scope.priority ≤ b.scope.priority then .error (.priorityOrder b.scope.priority)
      else checkPriorities (b :: rest)

/-- `NewStack` from scope_stack.go: an empty input is a legal empty stack;
otherwise validate names, sort strongest-first, and reject non-strict
priority ordering. -/
def NewStack (layers : List LayerV) : Except OptsError Stack :=
  match layers with
  | [] => .ok { layers := [] }
  | _ :: _ =>
      match scanNames [] layers with
      | .error e => .error e
      | .ok copied =>
          let sorted := copied.insertionSort stackRel
          match checkPriorities sorted with
          | .error e => .error e
          | .ok _ => .ok { layers := sorted }

/-- Per-layer snapshot retained by `Stack.Merge` for provenance
(`layerSnapshot` in scope_stack.go; its `Snapshot any` field is a
`Value`). -/
structure LayerSnapshot where
  scope : Scope
  snapshot : Value
  snapshotID : String
  deriving DecidableEq

/-- The zero `Scope` (an `Options` wrapper built without `WithScope`
carries it in its configuration). -/
def zeroScope : Scope := { name := "", label := "", priority := 0, metadata := .nil }

/-- `Options` wrapper: the resolved value, the retained per-layer
snapshots (empty unless the wrapper came from `Stack.Merge`), and the
configured scope (the only `optionsConfig` field the traced operations
read). -/
structure Options where
  value : Value
  layers : List LayerSnapshot
  cfgScope : Scope
  deriving DecidableEq

/-- `New(value)` with no options: no retained layers, zero config. -/
def NewOptions (value : Value) : Options :=
  { value := value, layers := [], cfgScope := zeroScope }

/-- `Stack.Merge` from scope_stack.go: requires at least one layer,
deep-clones each snapshot, folds them through `MergeLayers` in the stack's
strongest-to-weakest order, and attaches one retained entry per layer
(cloned scope, cloned raw snapshot, snapshot id) in the same order. -/
def Stack.Merge (s : Stack) : Except OptsError Options :=
  match s.layers with
  | [] => .error .emptyStack
  | _ :: _ =>
      let snapshots := s.layers.map (fun l => cloneValue l.snapshot)
      let layerMeta := s.layers.map (fun l =>
        LayerSnapshot.mk (cloneScope l.scope) (cloneValue l.snapshot) l.snapshotID)
      let merged := MergeLayers snapshots
      .ok { value := merged, layers := layerMeta, cfgScope := zeroScope }

/-- Number of elements of a slice/array payload. -/
def elemsLen : Elems → Nat
  | .nil => 0
  | .cons _ rest => elemsLen rest + 1

/-- Element at an index (defined exactly on indices below the length). -/
def elemsGet : Elems → Nat → Option Value
  | .nil, _ => none
  | .cons v _, 0 => some v
  | .cons _ rest, i + 1 => elemsGet rest i

/-- Split a character list at every occurrence of the separator
(`strings.Split` with a one-character separator; structural so that the
kernel can evaluate it). -/
def splitOnCharAux (sep : Char) : List Char → List Char → List String
  | [], acc => [String.mk acc.reverse]
  | c :: rest, acc =>
      if c = sep then String.mk acc.reverse :: splitOnCharAux sep rest []
      else splitOnCharAux sep rest (c :: acc)

/-- `strings.Split(s, sep)` for a one-character separator. -/
def splitOnChar (sep : Char) (s : String) : List String := splitOnCharAux sep s.data []

/-- Decimal reading of a non-empty all-digit character run. -/
def digitsToNat (cs : List Char) : Option Nat :=
  if cs ≠ [] ∧ cs.all (fun c => c.isDigit) then
    some (cs.foldl (fun acc c => acc * 10 + (c.toNat - 48)) 0)
  else none

/-- `strconv.Atoi`: optional sign followed by a non-empty run of decimal
digits. -/
def parseAtoi (s : String) : Option Int :=
  match s.data with
  | [] => none
  | c :: rest =>
      if c = '-' then (digitsToNat rest).map (fun n => -(n : Int))
      else if c = '+' then (digitsToNat rest).map (fun n => (n : Int))
      else (digitsToNat (c :: rest)).map (fun n => (n : Int))

/-- First comma-separated part of a `json` tag. -/
def tagName (t : String) : String := (splitOnChar (',') t).headD ("")

/-- `reflect.FieldByName`: the exported field whose Go name equals the
segment. -/
def findFieldExact : Fields → String → Option Value
  | .nil, _ => none
  | .cons n _ v rest, segment =>
      if n = segment then some v else findFieldExact rest segment

/-- Tag-based lookup of `structFieldByName`: first exported field whose
non-empty, non-`-` json tag names the segment. -/
def findFieldByTag : Fields → String → Option Value
  | .nil, _ => none
  | .cons _ t v rest, segment =>
      match t with
      | some tag =>
          if tag ≠ "" ∧ tag ≠ "-" ∧ tagName tag = segment then some v
          else findFieldByTag rest segment
      | none => findFieldByTag rest segment

/-- `structFieldByName` from the options file: exact Go field name first,
then first json-tag match. -/
def structFieldByName (fs : Fields) (segment : String) : Option Value :=
  match findFieldExact fs segment with
  | some v => some v
  | none => findFieldByTag fs segment

/-- Slice/array branch of `navigateSegment`: the segment must parse as an
in-range index. -/
def navigateIndex (l : Elems) (segment : String) : Except NavError Value :=
  match parseAtoi segment with
  | none => .error .nonNumericIndex
  | some index =>
      if index < 0 ∨ (elemsLen l : Int) ≤ index then .error .indexOutOfBounds
      else
        match elemsGet l index.toNat with
        | some v => .ok v
        | none => .error .indexOutOfBounds

/-- `navigateSegment` from the options file: dereference pointers
transparently (nil is an error), then dispatch on the container kind; a
nil map has no keys, scalars do not support navigation. -/
def navigateSegment : Value → String → Except NavError Value
  | .vNull, _ => .error .nilValue
  | .vPtrNil, _ => .error .nilPointer
  | .vPtr p, segment => navigateSegment p segment
  | .vMapNil, _ => .error .segmentNotFound
  | .vMap m, segment =>
      match findEntry m segment with
      | some v => .ok v
      | none => .error .segmentNotFound
  | .vStruct fs, segment =>
      match structFieldByName fs segment with
      | some v => .ok v
      | none => .error .fieldNotFound
  | .vSliceNil, segment => navigateIndex .nil segment
  | .vSlice l, segment => navigateIndex l segment
  | .vArr l, segment => navigateIndex l segment
  | .vBool _, _ => .error .unsupportedType
  | .vInt _, _ => .error .unsupportedType
  | .vFloat _, _ => .error .unsupportedType
  | .vStr _, _ => .error .unsupportedType

/-- `navigateSegments`: fold `navigateSegment` over the segments,
surfacing the first raw failure (used on raw layer snapshots). -/
def navigateSegments : Value → List String → Except NavError Value
  | current, [] => .ok current
  | current, segment :: rest =>
      match navigateSegment current segment with
      | .error e => .error e
      | .ok next => navigateSegments next rest

/-- `splitPath`: a path is non-blank and dot-separated with no empty
segment (`strings.TrimSpace(path) == ""` is the all-whitespace test). -/
def splitPath (path : String) : Except OptsError (List String) :=
  if path.data.all (fun c => c.isWhitespace) then .error .emptyPath
  else
    let segments := splitOnChar ('.') path
    if segments.contains ("") then .error (.emptySegment path)
    else .ok segments

/-- Segment fold of `Options.Get`, attaching the path and failing segment
to the first navigation error. -/
def getSegments (path : String) : Value → List String → Except OptsError Value
  | current, [] => .ok current
  | current, segment :: rest =>
      match navigateSegment current segment with
      | .error e => .error (.cannotTraverse path segment e)
      | .ok next => getSegments path next rest

/-- `Options.Get`: split the path and navigate the wrapped value. -/
def Options.Get (o : Options) (path : String) : Except OptsError Value :=
  match splitPath path with
  | .error e => .error e
  | .ok segments => getSegments path o.value segments

/-- `Provenance` from trace.go: how one scope layer answered one path
query.  `value` is the absent value when not found (Go leaves the `any`
field nil). -/
structure Provenance where
  scope : Scope
  snapshotID : String
  path : String
  value : Value
  found : Bool
  deriving DecidableEq

/-- `Trace` from trace.go: the ordered per-layer outcomes for one path. -/
structure Trace where
  path : String
  layers : List Provenance
  deriving DecidableEq

/-- Result triple of `ResolveWithTrace` (`(any, Trace, error)` in Go; the
value is the absent value exactly when the error is set). -/
structure Resolved where
  value : Value
  trace : Trace
  err : Option OptsError
  deriving DecidableEq

/-- The layer loop of `ResolveWithTrace`: walk the retained layers
strongest to weakest, recording one `Provenance` entry per layer and
keeping the first successfully navigated value. -/
def resolveAcross (path : String) (segments : List String) :
    List LayerSnapshot → Option Value × List Provenance
  | [] => (none, [])
  | layer :: rest =>
      let nav := navigateSegments layer.snapshot segments
      let prov : Provenance :=
        match nav with
        | .ok v =>
            { scope := layer.scope, snapshotID := layer.snapshotID, path := path,
              value := v, found := true }
        | .error _ =>
            { scope := layer.scope, snapshotID := layer.snapshotID, path := path,
              value := .vNull, found := false }
      let rec' := resolveAcross path segments rest
      (match nav with | .ok v => some v | .error _ => rec'.1, prov :: rec'.2)

/-- `ResolveWithTrace` from the options file.  A nil wrapper is an error;
without retained layers a single synthetic found entry reports the
wrapper's own `Get`; with layers, the first layer whose raw snapshot
navigates successfully supplies the effective value, and only when no
layer succeeds does the merged value's `Get` serve as fallback. -/
def ResolveWithTrace (o : Option Options) (path : String) : Resolved :=
  match o with
  | none => { value := .vNull, trace := { path := path, layers := [] }, err := some .nilOptions }
  | some o =>
      match splitPath path with
      | .error e => { value := .vNull, trace := { path := path, layers := [] }, err := some e }
      | .ok segments =>
          match o.layers with
          | [] =>
              match o.Get path with
              | .error e =>
                  { value := .vNull, trace := { path := path, layers := [] }, err := some e }
              | .ok value =>
                  let synthetic : Provenance :=
                    { scope := cloneScope o.cfgScope, snapshotID := "", path := path,
                      value := value, found := true }
                  { value := value, trace := { path := path, layers := [synthetic] },
                    err := none }
          | _ :: _ =>
              let walked := resolveAcross path segments o.layers
              match walked.1 with
              | some value =>
                  { value := value, trace := { path := path, layers := walked.2 }, err := none }
              | none =>
                  match o.Get path with
                  | .error e =>
                      { value := .vNull, trace := { path := path, layers := walked.2 },
                        err := some e }
                  | .ok value =>
                      { value := value, trace := { path := path, layers := walked.2 },
                        err := none }

/-- `appendPathSegment`: dot-join, treating an empty side as absent. -/
def appendPathSegment (pre segment : String) : String :=
  if pre = "" then segment
  else if segment = "" then pre
  else pre ++ "." ++ segment

/-- `structFieldSegment`: the json tag's name when the tag is non-empty,
not `-`, and its first part is non-empty; the Go field name otherwise. -/
def structFieldSegment (n : String) (t : Option String) : String :=
  match t with
  | some tag =>
      if tag ≠ "" ∧ tag ≠ "-" ∧ tagName tag ≠ "" then tagName tag else n
  | none => n

/-- Leaf emission of `flattenValue`: the accumulated path is recorded only
when non-empty (the bare root is never a path). -/
def leafIf (pre : String) : List String :=
  if pre = "" then [] else [pre]

mutual
/-- `flattenValue` from the options file: depth-first enumeration of leaf
paths.  Nil pointers/maps and nil interfaces are leaves; non-empty
slices/arrays recurse by decimal index and empty ones are leaves; structs
recurse into exported fields by tag-else-name segment (an empty segment is
skipped); maps recurse into every key.  The pointer-identity cycle guard
of the source is not representable here: model values are finite trees, on
which the guard never fires (shared or cyclic Go values are outside this
embedding). -/
def flattenValue : Value → String → List String
  | .vNull, pre => leafIf pre
  | .vBool _, pre => leafIf pre
  | .vInt _, pre => leafIf pre
  | .vFloat _, pre => leafIf pre
  | .vStr _, pre => leafIf pre
  | .vPtrNil, pre => leafIf pre
  | .vPtr p, pre => flattenValue p pre
  | .vMapNil, pre => leafIf pre
  | .vMap m, pre => flattenEntries m pre
  | .vSliceNil, pre => leafIf pre
  | .vSlice l, pre =>
      match l with
      | .nil => leafIf pre
      | .cons _ _ => flattenElems l pre 0
  | .vArr l, pre =>
      match l with
      | .nil => leafIf pre
      | .cons _ _ => flattenElems l pre 0
  | .vStruct fs, pre => flattenFields fs pre
termination_by structural v _ => v

/-- Key loop of the map case of `flattenValue`. -/
def flattenEntries : Entries → String → List String
  | .nil, _ => []
  | .cons k v rest, pre =>
      flattenValue v (appendPathSegment pre k) ++ flattenEntries rest pre
termination_by structural e _ => e

/-- Index loop of the slice/array case of `flattenValue`. -/
def flattenElems : Elems → String → Nat → List String
  | .nil, _, _ => []
  | .cons v rest, pre, i =>
      flattenValue v (appendPathSegment pre (toString i)) ++ flattenElems rest pre (i + 1)
termination_by structural e _ _ => e

/-- Field loop of the struct case of `flattenValue`. -/
def flattenFields : Fields → String → List String
  | .nil, _ => []
  | .cons n t v rest, pre =>
      let segment := structFieldSegment n t
      (if segment = "" then [] else flattenValue v (appendPathSegment pre segment)) ++
        flattenFields rest pre
termination_by structural f _ => f
end

/-- Ascending Go string order used by `sort.Strings`. -/
def pathLe (a b : String) : Prop := strLtB b a = false

instance : DecidableRel pathLe := fun a b =>
  decidable_of_iff (strLtB b a = false) Iff.rfl

/-- `collectPaths`: the distinct leaf paths of a value, sorted ascending
(the source gathers them in a set and sorts the keys). -/
def collectPaths (v : Value) : List String :=
  ((flattenValue v ("")).dedup).insertionSort pathLe

/-- The per-path loop of `FlattenWithProvenance`: resolve each leaf path,
record its first found entry (or the last layer's entry as best-effort
fallback when nothing was found), and stop at the first resolution
error. -/
def flattenLoop (o : Options) : List String → Except OptsError (List Provenance)
  | [] => .ok []
  | p :: rest =>
      let r := ResolveWithTrace (some o) p
      match r.err with
      | some e => .error e
      | none =>
          match flattenLoop o rest with
          | .error e => .error e
          | .ok acc =>
              match r.trace.layers.find? (fun entry => entry.found) with
              | some entry => .ok (entry :: acc)
              | none =>
                  match r.trace.layers.getLast? with
                  | some entry => .ok (entry :: acc)
                  | none => .ok acc

/-- `FlattenWithProvenance` from the options file: a nil wrapper is an
error; otherwise every leaf path of the wrapped value is resolved and
attributed. -/
def FlattenWithProvenance (o : Option Options) : Except OptsError (List Provenance) :=
  match o with
  | none => .error .nilOptions
  | some o => flattenLoop o (collectPaths o.value)

mutual
/-- JSON document tree.  `Trace.ToJSON` and `TraceFromJSON` delegate to Go
`encoding/json`; the byte rendering is modelled as the identity on this
tree (the textual form is injective up to whitespace).  Numbers carry an
exact rational payload; Go's float64 reading of numbers is modelled by
decoding every number into the distinct `vFloat` shape, exact for the
values exercised here (float64 rounding itself is out of scope). -/
inductive Json where
  | jNull : Json
  | jBool : Bool → Json
  | jNum : Rat → Json
  | jStr : String → Json
  | jArr : JArr → Json
  | jObj : JObj → Json
  deriving DecidableEq

/-- Array payload. -/
inductive JArr where
  | nil : JArr
  | cons : Json → JArr → JArr
  deriving DecidableEq

/-- Object payload (ordered, as emitted). -/
inductive JObj where
  | nil : JObj
  | cons : String → Json → JObj → JObj
  deriving DecidableEq
end

/-- Build an object payload from a key/document list. -/
def listToJObj : List (String × Json) → JObj
  | [] => .nil
  | (k, j) :: rest => .cons k j (listToJObj rest)

/-- First value held at a key of an object payload. -/
def jObjLookup : JObj → String → Option Json
  | .nil, _ => none
  | .cons k j rest, key => if k = key then some j else jObjLookup rest key

mutual
/-- Modelled from Go `encoding/json` marshalling (external standard
library, not part of this repository): nil pointers, nil maps, nil slices
and nil interfaces emit `null`; a non-nil pointer marshals its pointee;
integers and floats emit numbers; maps emit objects; slices and arrays
emit arrays; structs emit objects keyed by json tag else field name,
skipping `-`-tagged fields (tag options such as `omitempty` on dynamic
struct values are not modelled; no theorem depends on them). -/
def encodeValue : Value → Json
  | .vNull => .jNull
  | .vBool b => .jBool b
  | .vInt n => .jNum (n : Rat)
  | .vFloat q => .jNum q
  | .vStr s => .jStr s
  | .vPtrNil => .jNull
  | .vPtr p => encodeValue p
  | .vMapNil => .jNull
  | .vMap m => .jObj (encodeEntries m)
  | .vSliceNil => .jNull
  | .vSlice l => .jArr (encodeElems l)
  | .vArr l => .jArr (encodeElems l)
  | .vStruct fs => .jObj (encodeFields fs)
termination_by structural v => v

/-- Marshalling of a non-nil map's entries. -/
def encodeEntries : Entries → JObj
  | .nil => .nil
  | .cons k v rest => .cons k (encodeValue v) (encodeEntries rest)
termination_by structural e => e

/-- Marshalling of slice/array elements. -/
def encodeElems : Elems → JArr
  | .nil => .nil
  | .cons v rest => .cons (encodeValue v) (encodeElems rest)
termination_by structural e => e

/-- Marshalling of exported struct fields. -/
def encodeFields : Fields → JObj
  | .nil => .nil
  | .cons n t v rest =>
      if t = some ("-") then encodeFields rest
      else .cons (structFieldSegment n t) (encodeValue v) (encodeFields rest)
termination_by structural f => f
end

mutual
/-- Modelled from Go `encoding/json` unmarshalling into `any`: `null`
becomes the nil interface, booleans and strings themselves, every number a
float64, arrays a non-nil `[]any`, objects a non-nil `map[string]any`. -/
def decodeValue : Json → Value
  | .jNull => .vNull
  | .jBool b => .vBool b
  | .jNum q => .vFloat q
  | .jStr s => .vStr s
  | .jArr l => .vSlice (decodeElems l)
  | .jObj o => .vMap (decodeEntries o)
termination_by structural j => j

/-- Array elements decoded into `[]any`. -/
def decodeElems : JArr → Elems
  | .nil => .nil
  | .cons j rest => .cons (decodeValue j) (decodeElems rest)
termination_by structural l => l

/-- Object members decoded into `map[string]any`. -/
def decodeEntries : JObj → Entries
  | .nil => .nil
  | .cons k j rest => .cons k (decodeValue j) (decodeEntries rest)
termination_by structural o => o
end

mutual
/-- Values already in the image of JSON decoding: exactly these survive a
marshal/unmarshal round trip through `any` unchanged. -/
def jsonNormal : Value → Bool
  | .vNull => true
  | .vBool _ => true
  | .vFloat _ => true
  | .vStr _ => true
  | .vSlice l => jsonNormalElems l
  | .vMap m => jsonNormalEntries m
  | _ => false
termination_by structural v => v

/-- Element-wise normality. -/
def jsonNormalElems : Elems → Bool
  | .nil => true
  | .cons v rest => jsonNormal v && jsonNormalElems rest
termination_by structural l => l

/-- Entry-wise normality. -/
def jsonNormalEntries : Entries → Bool
  | .nil => true
  | .cons _ v rest => jsonNormal v && jsonNormalEntries rest
termination_by structural m => m
end

/-- Marshalling of a `Scope` (no json tags in the source, so Go field
names are the keys; a nil metadata map emits `null`). -/
def scopeToJSON (s : Scope) : Json :=
  .jObj (listToJObj [(("Name"), .jStr s.name), (("Label"), .jStr s.label),
    (("Priority"), .jNum (s.priority : Rat)),
    (("Metadata"), match s.metadata with
      | .nil => .jNull
      | m => .jObj (encodeEntries m))])

/-- Marshalling of a `Provenance` per its json tags: `snapshot_id` and
`value` carry `omitempty` (omitted for the empty string and the nil
interface respectively). -/
def provToJSON (p : Provenance) : Json :=
  .jObj (listToJObj ([(("scope"), scopeToJSON p.scope)] ++
    (if p.snapshotID = "" then [] else [(("snapshot_id"), .jStr p.snapshotID)]) ++
    [(("path"), .jStr p.path)] ++
    (match p.value with
      | .vNull => []
      | v => [(("value"), encodeValue v)]) ++
    [(("found"), .jBool p.found)]))

/-- Build an array payload from a document list. -/
def jarrOfList : List Json → JArr
  | [] => .nil
  | j :: rest => .cons j (jarrOfList rest)

/-- `Trace.ToJSON` from trace.go, as the emitted JSON tree.  A trace built
by `ResolveWithTrace` grows its layer list from nil, so an empty list is a
nil slice and emits `null`. -/
def Trace.ToJSON (t : Trace) : Json :=
  .jObj (listToJObj [(("path"), .jStr t.path),
    (("layers"), match t.layers with
      | [] => .jNull
      | ls => .jArr (jarrOfList (ls.map provToJSON)))])

/-- Unmarshalling of a string-typed struct field: absent means the zero
string, any non-string document is a type error. -/
def decodeStringField (o : JObj) (key : String) : Option String :=
  match jObjLookup o key with
  | none => some ""
  | some (.jStr s) => some s
  | some _ => none

/-- Unmarshalling of a `Scope`: `null` leaves the zero scope; `Priority`
must be an integral number; `Metadata` must be `null` or an object. -/
def decodeScope : Json → Option Scope
  | .jNull => some zeroScope
  | .jObj o =>
      match decodeStringField o ("Name"), decodeStringField o ("Label") with
      | some name, some label =>
          match
            (match jObjLookup o ("Priority") with
              | none => some (0 : Int)
              | some (.jNum q) => if q.den = 1 then some q.num else none
              | some _ => none) with
          | none => none
          | some priority =>
              match jObjLookup o ("Metadata") with
              | none => some (Scope.mk name label priority .nil)
              | some .jNull => some (Scope.mk name label priority .nil)
              | some (.jObj fs) => some (Scope.mk name label priority (decodeEntries fs))
              | some _ => none
      | _, _ => none
  | _ => none

/-- Unmarshalling of a `Provenance`: `scope` must be absent, `null`, or an
object; `found` must be absent or a boolean; `value` decodes into `any`. -/
def decodeProv : Json → Option Provenance
  | .jObj o =>
      match
        (match jObjLookup o ("scope") with
          | none => some zeroScope
          | some j => decodeScope j) with
      | none => none
      | some scope =>
          match decodeStringField o ("snapshot_id"), decodeStringField o ("path") with
          | some snapshotID, some path =>
              match
                (match jObjLookup o ("found") with
                  | none => some false
                  | some (.jBool b) => some b
                  | some _ => none) with
              | none => none
              | some found =>
                  let value :=
                    match jObjLookup o ("value") with
                    | none => Value.vNull
                    | some j => decodeValue j
                  some (Provenance.mk scope snapshotID path value found)
          | _, _ => none
  | _ => none

/-- Unmarshalling of the layer list: `null` leaves the nil slice. -/
def decodeProvList : JArr → Option (List Provenance)
  | .nil => some []
  | .cons j rest =>
      match decodeProv j, decodeProvList rest with
      | some p, some ps => some (p :: ps)
      | _, _ => none

/-- `TraceFromJSON` from trace.go: unmarshal a document previously
produced by `Trace.ToJSON` (or fail on a type mismatch). -/
def TraceFromJSON : Json → Option Trace
  | .jObj o =>
      match decodeStringField o ("path") with
      | none => none
      | some path =>
          match jObjLookup o ("layers") with
          | none => some { path := path, layers := [] }
          | some .jNull => some { path := path, layers := [] }
          | some (.jArr l) =>
              match decodeProvList l with
              | none => none
              | some layers => some { path := path, layers := layers }
          | some _ => none
  | _ => none

/-- Metadata copying is extensionally the identity. -/
theorem copyMetadata_id : (m : Entries) → copyMetadata m = m
  | .nil => rfl
  | .cons k v rest => by rw [copyMetadata, copyMetadata_id rest]

/-- Scope cloning is extensionally the identity. -/
theorem cloneScope_id (s : Scope) : cloneScope s = s := by
  simp [cloneScope, copyMetadata_id]

/-- Layer cloning is extensionally the identity. -/
theorem cloneLayer_id (l : LayerV) : cloneLayer l = l := by
  simp [cloneLayer, cloneScope_id, cloneValue_id]

/-- Keys of a map payload, in entry order. -/
def entriesKeys : Entries → List String
  | .nil => []
  | .cons k _ rest => k :: entriesKeys rest

/-- Payload of a map-shaped value. -/
def mapEntriesOf : Value → Entries
  | .vMap m => m
  | _ => .nil

/-- A key outside the key list is not found. -/
theorem findEntry_none_of_not_mem : {m : Entries} → {k : String} →
    k ∉ entriesKeys m → findEntry m k = none
  | .nil, _, _ => rfl
  | .cons k0 v0 rest, k, h => by
      simp only [entriesKeys, List.mem_cons, not_or] at h
      simp [findEntry, Ne.symm h.1, findEntry_none_of_not_mem h.2]

/-- Lookup after `setEntry`: the stored key answers the new value, every
other key is unchanged. -/
theorem findEntry_setEntry : (m : Entries) → (k : String) → (v : Value) → (q : String) →
    findEntry (setEntry m k v) q = if q = k then some v else findEntry m q
  | .nil, k, v, q => by
      by_cases h : q = k
      · simp [setEntry, findEntry, h]
      · simp [setEntry, findEntry, h, Ne.symm h]
  | .cons k0 v0 rest, k, v, q => by
      by_cases hk : k0 = k
      · subst hk
        by_cases hq : q = k0
        · simp [setEntry, findEntry, hq]
        · simp [setEntry, findEntry, hq, Ne.symm hq]
      · by_cases hq : k0 = q
        · subst hq
          simp [setEntry, findEntry, hk]
        · simp [setEntry, findEntry, hk, hq, findEntry_setEntry rest k v q]

/-- Lookup in the strong-entry merge loop: a key present in the strong
entries answers the merge with the accumulator's value (or its clone when
absent there); any other key reads the accumulator. -/
theorem findEntry_mergeEntries :
    (m : Entries) → (entriesKeys m).Nodup → (acc : Entries) → (q : String) →
    findEntry (mergeEntries m acc) q =
      match findEntry m q, findEntry acc q with
      | some sv, some av => some (mergeValue sv av)
      | some sv, none => some (cloneValue sv)
      | none, _ => findEntry acc q
  | .nil, _, acc, q => by simp [mergeEntries, findEntry]
  | .cons k v rest, hn, acc, q => by
      have hk : k ∉ entriesKeys rest := by
        simpa [entriesKeys] using (List.nodup_cons.mp (by simpa [entriesKeys] using hn)).1
      have hn' : (entriesKeys rest).Nodup :=
        (List.nodup_cons.mp (by simpa [entriesKeys] using hn)).2
      by_cases hq : q = k
      · subst hq
        have hnone : findEntry rest q = none := findEntry_none_of_not_mem hk
        cases hfind : findEntry acc q with
        | some existing =>
            simp only [mergeEntries, hfind]
            rw [findEntry_mergeEntries rest hn' _ q]
            simp [hnone, findEntry_setEntry, findEntry, hfind]
        | none =>
            simp only [mergeEntries, hfind]
            rw [findEntry_mergeEntries rest hn' _ q]
            simp [hnone, findEntry_setEntry, findEntry, hfind]
      · cases hfind : findEntry acc k with
        | some existing =>
            simp only [mergeEntries, hfind]
            rw [findEntry_mergeEntries rest hn' _ q]
            simp [findEntry_setEntry, findEntry, hq, Ne.symm hq]
        | none =>
            simp only [mergeEntries, hfind]
            rw [findEntry_mergeEntries rest hn' _ q]
            simp [findEntry_setEntry, findEntry, hq, Ne.symm hq]

/-- C2: merging a nil strong map inherits a clone of the weak map;
merging a non-nil strong map is key-wise — every weak key is cloned into
the result, and every strong key is merged with the weak value when the
weak map has the key, cloned in otherwise.  In particular `{a:1}` (strong)
merged with `{a:2,b:3}` (weak) is `{a:1,b:3}`. -/
theorem mergeValue_map_keywise (m wm : Entries) (w : Value)
    (hn : (entriesKeys m).Nodup) :
    mergeValue .vMapNil w = cloneValue w ∧
    (∀ q, findEntry (mapEntriesOf (mergeValue (.vMap m) (.vMap wm))) q =
      match findEntry m q, findEntry wm q with
      | some sv, some wv => some (mergeValue sv wv)
      | some sv, none => some (cloneValue sv)
      | none, some wv => some (cloneValue wv)
      | none, none => none) ∧
    mergeValue (.vMap (.cons "a" (.vInt 1) .nil))
        (.vMap (.cons "a" (.vInt 2) (.cons "b" (.vInt 3) .nil)))
      = .vMap (.cons "a" (.vInt 1) (.cons "b" (.vInt 3) .nil)) := by
  refine ⟨rfl, ?_, by decide⟩
  intro q
  have base : mergeValue (.vMap m) (.vMap wm) = .vMap (mergeEntries m (cloneEntries wm)) := rfl
  rw [base]
  simp only [mapEntriesOf]
  rw [cloneEntries_id wm, findEntry_mergeEntries m hn wm q]
  cases hm : findEntry m q <;> cases hwm : findEntry wm q <;> simp [cloneValue_id]

/-- C3: merging a nil strong slice inherits a clone of the weak slice;
a non-nil strong slice replaces wholesale — the result is an element-wise
clone of the strong slice no matter what the weak value is.  In particular
`[1,2]` (strong) merged with `[9,9,9]` (weak) is `[1,2]`. -/
theorem mergeValue_slice_wholesale :
    (∀ w, mergeValue .vSliceNil w = cloneValue w) ∧
    (∀ l w, mergeValue (.vSlice l) w = .vSlice (cloneElems l)) ∧
    mergeValue (.vSlice (.cons (.vInt 1) (.cons (.vInt 2) .nil)))
        (.vSlice (.cons (.vInt 9) (.cons (.vInt 9) (.cons (.vInt 9) .nil))))
      = .vSlice (.cons (.vInt 1) (.cons (.vInt 2) .nil)) := by
  refine ⟨fun w => rfl, fun l w => rfl, by decide⟩

/-- C4: merging a nil strong pointer yields a deep clone of the weak
value; a non-nil strong pointer does not replace wholesale — it merges the
strong pointee with the weak pointee (with the absent value when the weak
pointer is nil) and wraps the result in a fresh pointer.  The concrete
conjunct shows a partially populated struct behind a non-nil strong
pointer inheriting the weak layer's pointee for its own nil pointer
field. -/
theorem mergeValue_pointer_recursive :
    (∀ w, mergeValue .vPtrNil w = cloneValue w) ∧
    (∀ sp wp, mergeValue (.vPtr sp) (.vPtr wp) = .vPtr (mergeValue sp wp)) ∧
    (∀ sp, mergeValue (.vPtr sp) .vPtrNil = .vPtr (mergeValue sp .vNull)) ∧
    mergeValue
        (.vPtr (.vStruct (.cons "Hosts" none .vPtrNil (.cons "Name" none (.vStr "s") .nil))))
        (.vPtr (.vStruct (.cons "Hosts" none (.vPtr (.vStr "w"))
          (.cons "Name" none (.vStr "t") .nil))))
      = .vPtr (.vStruct (.cons "Hosts" none (.vPtr (.vStr "w"))
          (.cons "Name" none (.vStr "s") .nil))) := by
  refine ⟨fun w => rfl, fun sp wp => rfl, fun sp => rfl, by decide⟩

/-- C5: a plain (non-pointer) scalar in the strong layer always wins
verbatim, including zero values.  In particular a struct whose plain
boolean field is `false` in the strongest layer and `true` in a weaker
layer merges to `false`. -/
theorem mergeValue_scalar_strong_wins :
    (∀ w b, mergeValue (.vBool b) w = .vBool b) ∧
    (∀ w n, mergeValue (.vInt n) w = .vInt n) ∧
    (∀ w q, mergeValue (.vFloat q) w = .vFloat q) ∧
    (∀ w s, mergeValue (.vStr s) w = .vStr s) ∧
    mergeValue (.vStruct (.cons "Enabled" none (.vBool false) .nil))
        (.vStruct (.cons "Enabled" none (.vBool true) .nil))
      = .vStruct (.cons "Enabled" none (.vBool false) .nil) := by
  refine ⟨fun w b => rfl, fun w n => rfl, fun w q => rfl, fun w s => rfl, by decide⟩

/-- Witness for C2 at concrete inputs. -/
theorem mergeValue_map_keywise_witness :
    (entriesKeys (.cons "a" (.vInt 1) .nil)).Nodup ∧
    (mergeValue .vMapNil (.vMap (.cons "a" (.vInt 2) (.cons "b" (.vInt 3) .nil)))
        = cloneValue (.vMap (.cons "a" (.vInt 2) (.cons "b" (.vInt 3) .nil))) ∧
      (∀ q, findEntry (mapEntriesOf (mergeValue (.vMap (.cons "a" (.vInt 1) .nil))
          (.vMap (.cons "a" (.vInt 2) (.cons "b" (.vInt 3) .nil))))) q =
        match findEntry (.cons "a" (.vInt 1) .nil) q,
            findEntry (.cons "a" (.vInt 2) (.cons "b" (.vInt 3) .nil)) q with
        | some sv, some wv => some (mergeValue sv wv)
        | some sv, none => some (cloneValue sv)
        | none, some wv => some (cloneValue wv)
        | none, none => none) ∧
      mergeValue (.vMap (.cons "a" (.vInt 1) .nil))
          (.vMap (.cons "a" (.vInt 2) (.cons "b" (.vInt 3) .nil)))
        = .vMap (.cons "a" (.vInt 1) (.cons "b" (.vInt 3) .nil))) :=
  ⟨by decide,
   mergeValue_map_keywise (.cons "a" (.vInt 1) .nil)
     (.cons "a" (.vInt 2) (.cons "b" (.vInt 3) .nil))
     (.vMap (.cons "a" (.vInt 2) (.cons "b" (.vInt 3) .nil))) (by decide)⟩

/-- If the validation scan succeeds, it returns the layers unchanged, the
scope names are pairwise distinct, and none of them was in the seen set. -/
theorem scanNames_ok : (seen : List String) → (ls : List LayerV) → (out : List LayerV) →
    scanNames seen ls = .ok out →
    out = ls ∧ (ls.map (fun l => l.scope.name)).Nodup ∧
      ∀ n ∈ ls.map (fun l => l.scope.name), n ∉ seen
  | seen, [], out, h => by
      simp only [scanNames] at h
      cases h
      simp
  | seen, l :: rest, out, h => by
      simp only [scanNames, cloneLayer_id] at h
      by_cases h1 : l.scope.name = ""
      · simp [h1] at h
      · by_cases h2 : l.scope.name ∈ seen
        · simp [h1, h2] at h
        · simp only [h1, h2, if_false, ite_false] at h
          cases hrec : scanNames (l.scope.name :: seen) rest with
          | error e => rw [hrec] at h; cases h
          | ok copied =>
              rw [hrec] at h
              cases h
              obtain ⟨hout, hnd, hseen⟩ := scanNames_ok _ _ _ hrec
              subst hout
              refine ⟨rfl, ?_, ?_⟩
              · refine List.nodup_cons.mpr ⟨?_, hnd⟩
                intro hmem
                exact (hseen _ hmem) (List.mem_cons_self _ _)
              · intro n hn
                rcases List.mem_cons.mp hn with hn | hn
                · subst hn; exact h2
                · intro hs; exact (hseen _ hn) (List.mem_cons_of_mem _ hs)

/-- The validation scan succeeds on non-empty, pairwise-distinct names
disjoint from the seen set, and returns the layers unchanged. -/
theorem scanNames_ok_of : (seen : List String) → (ls : List LayerV) →
    (∀ l ∈ ls, l.scope.name ≠ "") →
    (ls.map (fun l => l.scope.name)).Nodup →
    (∀ n ∈ ls.map (fun l => l.scope.name), n ∉ seen) →
    scanNames seen ls = .ok ls
  | seen, [], _, _, _ => rfl
  | seen, l :: rest, hne, hnd, hdisj => by
      have h1 : l.scope.name ≠ "" := hne l (List.mem_cons_self _ _)
      have h2 : l.scope.name ∉ seen :=
        hdisj _ (by simp)
      have hnd' : (∀ x ∈ rest, ¬ x.scope.name = l.scope.name) ∧
          (rest.map (fun l => l.scope.name)).Nodup := by simpa using hnd
      have hrec : scanNames (l.scope.name :: seen) rest = .ok rest :=
        scanNames_ok_of _ rest (fun x hx => hne x (List.mem_cons_of_mem _ hx)) hnd'.2
          (by
            intro n hn
            obtain ⟨x, hx, rfl⟩ := List.mem_map.mp hn
            simp only [List.mem_cons, not_or]
            exact ⟨hnd'.1 x hx, hdisj _ (by simpa using List.mem_cons_of_mem _ hn)⟩)
      simp [scanNames, cloneLayer_id, h1, h2, hrec]

/-- A failing validation scan reports a missing or duplicated name. -/
theorem scanNames_error_shape : (seen : List String) → (ls : List LayerV) → (e : OptsError) →
    scanNames seen ls = .error e →
    e = .scopeNameRequired ∨ ∃ n, e = .duplicateScopeName n
  | seen, [], e, h => by simp [scanNames] at h
  | seen, l :: rest, e, h => by
      simp only [scanNames, cloneLayer_id] at h
      by_cases h1 : l.scope.name = ""
      · simp [h1] at h
        exact Or.inl h.symm
      · by_cases h2 : l.scope.name ∈ seen
        · simp [h1, h2] at h
          exact Or.inr ⟨_, h.symm⟩
        · simp only [h1, h2, if_false, ite_false] at h
          cases hrec : scanNames (l.scope.name :: seen) rest with
          | error e' =>
              rw [hrec] at h
              cases h
              exact scanNames_error_shape _ _ _ hrec
          | ok copied => rw [hrec] at h; cases h

/-- With every name non-empty, a failing validation scan reports a
duplicate. -/
theorem scanNames_error_nonempty : (seen : List String) → (ls : List LayerV) → (e : OptsError) →
    (∀ l ∈ ls, l.scope.name ≠ "") →
    scanNames seen ls = .error e → ∃ n, e = .duplicateScopeName n
  | seen, [], e, _, h => by simp [scanNames] at h
  | seen, l :: rest, e, hne, h => by
      have h1 : l.scope.name ≠ "" := hne l (List.mem_cons_self _ _)
      simp only [scanNames, cloneLayer_id, h1, if_false, ite_false] at h
      by_cases h2 : l.scope.name ∈ seen
      · simp [h2] at h
        exact ⟨_, h.symm⟩
      · simp only [h2, if_false, ite_false] at h
        cases hrec : scanNames (l.scope.name :: seen) rest with
        | error e' =>
            rw [hrec] at h
            cases h
            exact scanNames_error_nonempty _ _ _ (fun x hx => hne x (List.mem_cons_of_mem _ hx)) hrec
        | ok copied => rw [hrec] at h; cases h

/-- With pairwise-distinct names disjoint from the seen set, an empty name
anywhere makes the validation scan fail with the name-required error. -/
theorem scanNames_error_of_empty : (seen : List String) → (ls : List LayerV) →
    (ls.map (fun l => l.scope.name)).Nodup →
    (∀ n ∈ ls.map (fun l => l.scope.name), n ∉ seen) →
    (∃ l ∈ ls, l.scope.name = "") →
    scanNames seen ls = .error .scopeNameRequired
  | seen, [], _, _, hex => by simp at hex
  | seen, l :: rest, hnd, hdisj, hex => by
      by_cases h1 : l.scope.name = ""
      · simp [scanNames, cloneLayer_id, h1]
      · have hnd' : (∀ x ∈ rest, ¬ x.scope.name = l.scope.name) ∧
            (rest.map (fun l => l.scope.name)).Nodup := by simpa using hnd
        have h2 : l.scope.name ∉ seen := hdisj _ (by simp)
        have hex' : ∃ x ∈ rest, x.scope.name = "" := by
          rcases hex with ⟨x, hx, hxe⟩
          rcases List.mem_cons.mp hx with hx | hx
          · exact absurd (hx ▸ hxe) h1
          · exact ⟨x, hx, hxe⟩
        have hrec : scanNames (l.scope.name :: seen) rest = .error .scopeNameRequired :=
          scanNames_error_of_empty _ rest hnd'.2
            (by
              intro n hn
              obtain ⟨x, hx, rfl⟩ := List.mem_map.mp hn
              simp only [List.mem_cons, not_or]
              exact ⟨hnd'.1 x hx, hdisj _ (by simpa using List.mem_cons_of_mem _ hn)⟩)
            hex'
        simp [scanNames, cloneLayer_id, h1, h2, hrec]

/-- A passing priority check means the priorities strictly decrease along
the list. -/
theorem checkPriorities_ok_chain : (ls : List LayerV) → checkPriorities ls = .ok () →
    ls.Chain' (fun a b => b.scope.priority < a.scope.priority)
  | [], _ => List.chain'_nil
  | [_], _ => List.chain'_singleton _
  | a :: b :: rest, h => by
      by_cases hab : a.scope.priority ≤ b.scope.priority
      · simp [checkPriorities, hab] at h
      · simp only [checkPriorities, hab, if_false, ite_false] at h
        have := checkPriorities_ok_chain (b :: rest) h
        exact List.chain'_cons.mpr ⟨by omega, this⟩

/-- A failing priority check reports the priority-order error. -/
theorem checkPriorities_error_shape : (ls : List LayerV) → (e : OptsError) →
    checkPriorities ls = .error e → ∃ p, e = .priorityOrder p
  | [], e, h => by simp [checkPriorities] at h
  | [_], e, h => by simp [checkPriorities] at h
  | a :: b :: rest, e, h => by
      by_cases hab : a.scope.priority ≤ b.scope.priority
      · simp [checkPriorities, hab] at h
        exact ⟨_, h.symm⟩
      · simp only [checkPriorities, hab, if_false, ite_false] at h
        exact checkPriorities_error_shape (b :: rest) e h

/-- Kind classifier for `NewStack` results (the source exposes the kinds
as distinguishable sentinel errors via `errors.Is`). -/
inductive ErrKind where
  | okStack : ErrKind
  | scopeNameRequiredKind : ErrKind
  | duplicateNameKind : ErrKind
  | priorityOrderKind : ErrKind
  | otherKind : ErrKind
  deriving DecidableEq

/-- Kind of a `NewStack` result. -/
def errKind : Except OptsError Stack → ErrKind
  | .ok _ => .okStack
  | .error .scopeNameRequired => .scopeNameRequiredKind
  | .error (.duplicateScopeName _) => .duplicateNameKind
  | .error (.priorityOrder _) => .priorityOrderKind
  | .error _ => .otherKind

/-- C6 (amended): `NewStack` reports the first violation its validation
scan meets, scanning layers in order with the empty-name check before the
duplicate check at each layer; the priority check runs only after every
name validates.  Hence: an empty layer list is not an error and builds an
empty stack; if all names are non-empty and two layers share a name the
error kind is duplicate-name; if names are pairwise distinct and some name
is empty the kind is scope-name-required; and if names are non-empty and
pairwise distinct but two layers share a priority the kind is
priority-order.  Every failure is an `Except.error`, so no usable stack is
produced. -/
theorem newStack_error_kinds (ls : List LayerV) :
    NewStack [] = .ok (Stack.mk []) ∧
    ((∀ l ∈ ls, l.scope.name ≠ "") → ¬ (ls.map (fun l => l.scope.name)).Nodup →
      errKind (NewStack ls) = .duplicateNameKind) ∧
    ((ls.map (fun l => l.scope.name)).Nodup → (∃ l ∈ ls, l.scope.name = "") →
      errKind (NewStack ls) = .scopeNameRequiredKind) ∧
    ((∀ l ∈ ls, l.scope.name ≠ "") → (ls.map (fun l => l.scope.name)).Nodup →
      ¬ (ls.map (fun l => l.scope.priority)).Nodup →
      errKind (NewStack ls) = .priorityOrderKind) := by
  refine ⟨rfl, ?_, ?_, ?_⟩
  · intro hne hdup
    cases ls with
    | nil => simp at hdup
    | cons l rest =>
        cases hscan : scanNames [] (l :: rest) with
        | ok out =>
            exact absurd (scanNames_ok _ _ _ hscan).2.1 hdup
        | error e =>
            obtain ⟨n, rfl⟩ := scanNames_error_nonempty _ _ _ hne hscan
            simp [NewStack, hscan, errKind]
  · intro hnd hex
    obtain ⟨x, hx, hxe⟩ := hex
    cases ls with
    | nil => simp at hx
    | cons l rest =>
        have hscan : scanNames [] (l :: rest) = .error .scopeNameRequired :=
          scanNames_error_of_empty _ _ hnd (by simp) ⟨x, hx, hxe⟩
        simp [NewStack, hscan, errKind]
  · intro hne hnd hpdup
    cases ls with
    | nil => simp at hpdup
    | cons l rest =>
        have hscan : scanNames [] (l :: rest) = .ok (l :: rest) :=
          scanNames_ok_of _ _ hne hnd (by simp)
        cases hchk : checkPriorities ((l :: rest).insertionSort stackRel) with
        | ok u =>
            exfalso
            have hchain := checkPriorities_ok_chain _ hchk
            haveI : IsTrans LayerV (fun a b => b.scope.priority < a.scope.priority) :=
              ⟨fun a b c h1 h2 => lt_trans h2 h1⟩
            have hpw : ((l :: rest).insertionSort stackRel).Pairwise
                (fun a b => b.scope.priority < a.scope.priority) :=
              List.chain'_iff_pairwise.mp hchain
            have hmap : (((l :: rest).insertionSort stackRel).map
                (fun l => l.scope.priority)).Pairwise (fun a b => b < a) :=
              List.pairwise_map.mpr hpw
            have hnodup : (((l :: rest).insertionSort stackRel).map
                (fun l => l.scope.priority)).Nodup :=
              hmap.imp (fun h => h.ne')
            have hperm := (List.perm_insertionSort stackRel (l :: rest)).map
              (fun l => l.scope.priority)
            exact hpdup (hperm.nodup_iff.mp hnodup)
        | error e =>
            obtain ⟨p, rfl⟩ := checkPriorities_error_shape _ _ hchk
            simp only [NewStack, hscan]
            rw [hchk]
            rfl

/-- Layer named `a` at priority 1. -/
def dupNameLayer1 : LayerV := LayerV.mk (Scope.mk ("a") ("") 1 .nil) .vNull ("")

/-- A second, distinct layer also named `a` at priority 1. -/
def dupNameLayer2 : LayerV := LayerV.mk (Scope.mk ("a") ("") 1 .nil) (.vBool true) ("x")

/-- C6 counterexample: these two layers share priority 1, yet `NewStack`
fails with the duplicate-name error, not the priority-order kind the claim
asserts for any two layers sharing a priority — the name scan runs first. -/
theorem newStack_shared_priority_counterexample :
    dupNameLayer1.scope.priority = dupNameLayer2.scope.priority ∧
    NewStack [dupNameLayer1, dupNameLayer2] = .error (.duplicateScopeName ("a")) ∧
    errKind (NewStack [dupNameLayer1, dupNameLayer2]) = .duplicateNameKind ∧
    errKind (NewStack [dupNameLayer1, dupNameLayer2]) ≠ .priorityOrderKind := by
  refine ⟨rfl, by decide, by decide, by decide⟩

/-- Layer named `a` at priority 1 (with a name shared below). -/
def dupWitnessLayer1 : LayerV := LayerV.mk (Scope.mk ("a") ("") 1 .nil) .vNull ("")

/-- Layer also named `a`, at the distinct priority 2. -/
def dupWitnessLayer2 : LayerV := LayerV.mk (Scope.mk ("a") ("") 2 .nil) .vNull ("")

/-- Witness for C6 at concrete inputs: the duplicate-name clause fires on
two nonempty-named layers sharing the name `a`. -/
theorem newStack_error_kinds_witness :
    NewStack [] = .ok (Stack.mk []) ∧
    (∀ l ∈ [dupWitnessLayer1, dupWitnessLayer2], l.scope.name ≠ "") ∧
    ¬ ([dupWitnessLayer1, dupWitnessLayer2].map (fun l => l.scope.name)).Nodup ∧
    errKind (NewStack [dupWitnessLayer1, dupWitnessLayer2]) = .duplicateNameKind :=
  ⟨(newStack_error_kinds []).1, by decide, by decide,
    (newStack_error_kinds [dupWitnessLayer1, dupWitnessLayer2]).2.1 (by decide) (by decide)⟩

/-- C7: `Stack.Merge` errors on a stack with zero layers (never a
zero-value wrapper); on a non-empty stack it succeeds with the value
obtained by `MergeLayers` over the layers' cloned snapshots in the stack's
strongest-to-weakest order, and with exactly one retained entry per layer
— cloned scope, cloned raw snapshot, snapshot id — in that same order. -/
theorem stackMerge_characterization (st : Stack) (o : Options)
    (h : Stack.Merge st = .ok o) :
    Stack.Merge (Stack.mk []) = .error .emptyStack ∧
    st.layers ≠ [] ∧
    o.value = MergeLayers (st.layers.map (fun l => cloneValue l.snapshot)) ∧
    o.layers = st.layers.map (fun l =>
      LayerSnapshot.mk (cloneScope l.scope) (cloneValue l.snapshot) l.snapshotID) := by
  refine ⟨rfl, ?_, ?_, ?_⟩
  · intro hnil
    rw [Stack.Merge, hnil] at h
    cases h
  · cases hstl : st.layers with
    | nil => rw [Stack.Merge, hstl] at h; cases h
    | cons l rest =>
        rw [Stack.Merge, hstl] at h
        cases h
        simp [hstl]
  · cases hstl : st.layers with
    | nil => rw [Stack.Merge, hstl] at h; cases h
    | cons l rest =>
        rw [Stack.Merge, hstl] at h
        cases h
        simp [hstl]

/-- The `defaults` layer of the spec's trace example. -/
def envDefaults : LayerV :=
  NewLayer (NewScope ("defaults") 10) (.vMap (.cons "env" (.vStr "prod") .nil)) ("defaults/1")

/-- The `user` layer of the spec's trace example. -/
def envUser : LayerV :=
  NewLayer (NewScope ("user") 20) (.vMap (.cons "env" (.vStr "staging") .nil)) ("user/5")

/-- Validated stack of the trace example (user layer first: priority 20
beats 10). -/
def envStack : Stack :=
  match NewStack [envDefaults, envUser] with
  | .ok s => s
  | .error _ => Stack.mk []

/-- Merged wrapper of the trace example. -/
def envOptions : Options :=
  match Stack.Merge envStack with
  | .ok o => o
  | .error _ => NewOptions .vNull

/-- Witness for C7 at the trace example's stack. -/
theorem stackMerge_characterization_witness :
    Stack.Merge envStack = .ok envOptions ∧
    (Stack.Merge (Stack.mk []) = .error .emptyStack ∧
      envStack.layers ≠ [] ∧
      envOptions.value = MergeLayers (envStack.layers.map (fun l => cloneValue l.snapshot)) ∧
      envOptions.layers = envStack.layers.map (fun l =>
        LayerSnapshot.mk (cloneScope l.scope) (cloneValue l.snapshot) l.snapshotID)) :=
  ⟨by decide, stackMerge_characterization envStack envOptions (by decide)⟩

/-- The provenance entries built by the layer loop are exactly one per
layer, in order, found precisely when that layer's raw snapshot navigates
successfully (and then carrying the navigated value). -/
theorem resolveAcross_trace (path : String) (segments : List String) :
    (ls : List LayerSnapshot) → (resolveAcross path segments ls).2 = ls.map (fun layer =>
      match navigateSegments layer.snapshot segments with
      | .ok v => Provenance.mk layer.scope layer.snapshotID path v true
      | .error _ => Provenance.mk layer.scope layer.snapshotID path .vNull false)
  | [] => rfl
  | layer :: rest => by
      simp only [resolveAcross, List.map_cons]
      cases hnav : navigateSegments layer.snapshot segments <;>
        simp [hnav, resolveAcross_trace path segments rest]

/-- The layer loop's effective value is the first successful navigation
over the layers in order. -/
theorem resolveAcross_value (path : String) (segments : List String) :
    (ls : List LayerSnapshot) → (resolveAcross path segments ls).1 =
      ls.findSome? (fun layer => (navigateSegments layer.snapshot segments).toOption)
  | [] => rfl
  | layer :: rest => by
      simp only [resolveAcross, List.findSome?_cons]
      cases hnav : navigateSegments layer.snapshot segments <;>
        simp [hnav, Except.toOption, resolveAcross_value path segments rest]

/-- Two pointwise-equal selectors find the same first hit. -/
theorem findSome?_congrList {α β : Type} {l : List α} {f g : α → Option β}
    (h : ∀ a ∈ l, f a = g a) : l.findSome? f = l.findSome? g := by
  induction l with
  | nil => rfl
  | cons a rest ih =>
      simp only [List.findSome?_cons, h a (List.mem_cons_self _ _)]
      cases g a with
      | some b => rfl
      | none => exact ih (fun x hx => h x (List.mem_cons_of_mem _ hx))

/-- C1: on a wrapper produced by `Stack.Merge`, `ResolveWithTrace` builds
one provenance entry per retained layer in the stack's
strongest-to-weakest order, each found exactly when navigating that
layer's raw snapshot along the path succeeds (and then reporting the
navigated value), and whenever some layer succeeds the effective value is
the first such layer's value with no error — not the result of `Get` on
the merged value.  In particular, for `defaults{env:"prod"}` at priority
10 and `user{env:"staging"}` at priority 20, resolving `env` returns
`staging` with entries `[user(found,staging), defaults(found,prod)]`. -/
theorem resolveWithTrace_layered_provenance (st : Stack) (o : Options)
    (path : String) (segments : List String)
    (hmerge : Stack.Merge st = .ok o)
    (hsplit : splitPath path = .ok segments)
    (hne : st.layers ≠ []) :
    ((ResolveWithTrace (some o) path).trace.layers = st.layers.map (fun layer =>
        match navigateSegments layer.snapshot segments with
        | .ok v => Provenance.mk (cloneScope layer.scope) layer.snapshotID path v true
        | .error _ => Provenance.mk (cloneScope layer.scope) layer.snapshotID path .vNull false) ∧
      (∀ v, st.layers.findSome?
          (fun layer => (navigateSegments layer.snapshot segments).toOption) = some v →
        (ResolveWithTrace (some o) path).value = v ∧
        (ResolveWithTrace (some o) path).err = none)) ∧
    (ResolveWithTrace (some envOptions) ("env")).value = .vStr "staging" ∧
    (ResolveWithTrace (some envOptions) ("env")).trace.layers =
      [Provenance.mk (NewScope ("user") 20) ("user/5") ("env") (.vStr "staging") true,
       Provenance.mk (NewScope ("defaults") 10) ("defaults/1") ("env") (.vStr "prod") true] := by
  have holayers : o.layers = st.layers.map (fun l =>
      LayerSnapshot.mk (cloneScope l.scope) (cloneValue l.snapshot) l.snapshotID) := by
    cases hstl : st.layers with
    | nil => exact absurd hstl hne
    | cons a b =>
        rw [Stack.Merge, hstl] at hmerge
        cases hmerge
        simp [hstl]
  obtain ⟨l0, rest0, hstl⟩ := List.exists_cons_of_ne_nil hne
  have hcons : o.layers = LayerSnapshot.mk (cloneScope l0.scope) (cloneValue l0.snapshot)
      l0.snapshotID :: rest0.map (fun l =>
        LayerSnapshot.mk (cloneScope l.scope) (cloneValue l.snapshot) l.snapshotID) := by
    rw [holayers, hstl, List.map_cons]
  refine ⟨⟨?_, ?_⟩, by decide, by decide⟩
  · have htrace : (ResolveWithTrace (some o) path).trace.layers =
        (resolveAcross path segments o.layers).2 := by
      simp only [ResolveWithTrace, hsplit, hcons]
      cases hw : (resolveAcross path segments (LayerSnapshot.mk (cloneScope l0.scope)
          (cloneValue l0.snapshot) l0.snapshotID :: rest0.map (fun l =>
            LayerSnapshot.mk (cloneScope l.scope) (cloneValue l.snapshot) l.snapshotID))).1 with
      | some v => simp [hw]
      | none => cases hget : Options.Get o path <;> simp [hw, hget]
    rw [htrace, resolveAcross_trace, holayers, List.map_map]
    apply List.map_congr_left
    intro layer _
    simp [Function.comp, cloneValue_id]
  · intro v hv
    have hw1 : (resolveAcross path segments o.layers).1 = some v := by
      rw [resolveAcross_value, holayers, List.findSome?_map]
      rw [findSome?_congrList (g := fun layer =>
        (navigateSegments layer.snapshot segments).toOption)
        (fun a _ => by simp [Function.comp, cloneValue_id])]
      exact hv
    rw [hcons] at hw1
    constructor <;> · simp only [ResolveWithTrace, hsplit, hcons, hw1]

/-- Witness for C1 at the spec's trace example. -/
theorem resolveWithTrace_layered_provenance_witness :
    Stack.Merge envStack = .ok envOptions ∧
    splitPath ("env") = .ok ["env"] ∧
    envStack.layers ≠ [] ∧
    (((ResolveWithTrace (some envOptions) ("env")).trace.layers =
        envStack.layers.map (fun layer =>
          match navigateSegments layer.snapshot ["env"] with
          | .ok v => Provenance.mk (cloneScope layer.scope) layer.snapshotID ("env") v true
          | .error _ =>
              Provenance.mk (cloneScope layer.scope) layer.snapshotID ("env") .vNull false) ∧
      (∀ v, envStack.layers.findSome?
          (fun layer => (navigateSegments layer.snapshot ["env"]).toOption) = some v →
        (ResolveWithTrace (some envOptions) ("env")).value = v ∧
        (ResolveWithTrace (some envOptions) ("env")).err = none)) ∧
      (ResolveWithTrace (some envOptions) ("env")).value = .vStr "staging" ∧
      (ResolveWithTrace (some envOptions) ("env")).trace.layers =
        [Provenance.mk (NewScope ("user") 20) ("user/5") ("env") (.vStr "staging") true,
         Provenance.mk (NewScope ("defaults") 10) ("defaults/1") ("env") (.vStr "prod") true]) :=
  ⟨by decide, by decide, by decide,
    resolveWithTrace_layered_provenance envStack envOptions ("env") ["env"]
      (by decide) (by decide) (by decide)⟩

/-- C10: on a nil wrapper, `ResolveWithTrace` returns an explicit error
together with a trace carrying the requested path and no layer entries,
and `FlattenWithProvenance` returns an explicit error — for every path,
with no crash. -/
theorem nil_wrapper_errors (path : String) :
    ResolveWithTrace none path =
      Resolved.mk .vNull (Trace.mk path []) (some .nilOptions) ∧
    FlattenWithProvenance none = .error .nilOptions :=
  ⟨rfl, rfl⟩

/-- A leaf emission is never the empty path. -/
theorem mem_leafIf {p pre : String} (h : p ∈ leafIf pre) : p ≠ "" := by
  by_cases hpre : pre = ""
  · simp [leafIf, hpre] at h
  · simp [leafIf, hpre] at h
    exact h ▸ hpre

mutual
/-- Every path enumerated from a value is non-empty (each emission passes
the non-empty-prefix guard at its leaf). -/
theorem flattenValue_ne_empty : (v : Value) → (pre : String) →
    ∀ p ∈ flattenValue v pre, p ≠ ""
  | .vNull, pre, p, h => mem_leafIf h
  | .vBool _, pre, p, h => mem_leafIf h
  | .vInt _, pre, p, h => mem_leafIf h
  | .vFloat _, pre, p, h => mem_leafIf h
  | .vStr _, pre, p, h => mem_leafIf h
  | .vPtrNil, pre, p, h => mem_leafIf h
  | .vPtr q, pre, p, h => flattenValue_ne_empty q pre p h
  | .vMapNil, pre, p, h => mem_leafIf h
  | .vMap m, pre, p, h => flattenEntries_ne_empty m pre p h
  | .vSliceNil, pre, p, h => mem_leafIf h
  | .vSlice l, pre, p, h => by
      cases l with
      | nil => exact mem_leafIf h
      | cons a rest => exact flattenElems_ne_empty (.cons a rest) pre 0 p h
  | .vArr l, pre, p, h => by
      cases l with
      | nil => exact mem_leafIf h
      | cons a rest => exact flattenElems_ne_empty (.cons a rest) pre 0 p h
  | .vStruct fs, pre, p, h => flattenFields_ne_empty fs pre p h

/-- Entry enumeration emits only non-empty paths. -/
theorem flattenEntries_ne_empty : (m : Entries) → (pre : String) →
    ∀ p ∈ flattenEntries m pre, p ≠ ""
  | .nil, pre, p, h => by simp [flattenEntries] at h
  | .cons k v rest, pre, p, h => by
      rw [flattenEntries] at h
      rcases List.mem_append.mp h with h | h
      · exact flattenValue_ne_empty v _ p h
      · exact flattenEntries_ne_empty rest pre p h

/-- Element enumeration emits only non-empty paths. -/
theorem flattenElems_ne_empty : (l : Elems) → (pre : String) → (i : Nat) →
    ∀ p ∈ flattenElems l pre i, p ≠ ""
  | .nil, pre, i, p, h => by simp [flattenElems] at h
  | .cons v rest, pre, i, p, h => by
      rw [flattenElems] at h
      rcases List.mem_append.mp h with h | h
      · exact flattenValue_ne_empty v _ p h
      · exact flattenElems_ne_empty rest pre (i + 1) p h

/-- Field enumeration emits only non-empty paths. -/
theorem flattenFields_ne_empty : (fs : Fields) → (pre : String) →
    ∀ p ∈ flattenFields fs pre, p ≠ ""
  | .nil, pre, p, h => by simp [flattenFields] at h
  | .cons n t v rest, pre, p, h => by
      rw [flattenFields] at h
      rcases List.mem_append.mp h with h | h
      · by_cases hseg : structFieldSegment n t = ""
        · simp [hseg] at h
        · simp only [hseg, if_false, ite_false] at h
          exact flattenValue_ne_empty v _ p h
      · exact flattenFields_ne_empty rest pre p h
end

/-- Every collected leaf path is non-empty. -/
theorem collectPaths_ne_empty (v : Value) : ∀ p ∈ collectPaths v, p ≠ "" := by
  intro p hp
  have hp1 : p ∈ (flattenValue v ("")).dedup :=
    ((List.perm_insertionSort pathLe _).mem_iff).mp hp
  exact flattenValue_ne_empty v ("") p (List.mem_dedup.mp hp1)

/-- Every provenance entry of a resolution's trace carries the requested
path. -/
theorem resolveWithTrace_entry_path (o : Options) (p : String) :
    ∀ e ∈ (ResolveWithTrace (some o) p).trace.layers, e.path = p := by
  intro e he
  rw [ResolveWithTrace] at he
  cases hsplit : splitPath p with
  | error err => rw [hsplit] at he; simp at he
  | ok segments =>
      rw [hsplit] at he
      cases hlay : o.layers with
      | nil =>
          rw [hlay] at he
          cases hget : o.Get p with
          | error err => rw [hget] at he; simp at he
          | ok v =>
              rw [hget] at he
              simp at he
              rw [he]
      | cons l0 rest =>
          rw [hlay] at he
          have hwalk : e ∈ (resolveAcross p segments (l0 :: rest)).2 := by
            cases hw : (resolveAcross p segments (l0 :: rest)).1 with
            | some v => simpa [hw] using he
            | none => cases hget : o.Get p <;> simpa [hw, hget] using he
          rw [resolveAcross_trace] at hwalk
          obtain ⟨layer, _, hlayer⟩ := List.mem_map.mp hwalk
          cases hnav : navigateSegments layer.snapshot segments <;>
            simp [hnav] at hlayer <;> rw [← hlayer]

/-- A resolution that reports no error has at least one provenance
entry. -/
theorem resolveWithTrace_layers_ne_nil (o : Options) (p : String) :
    (ResolveWithTrace (some o) p).err = none →
    (ResolveWithTrace (some o) p).trace.layers ≠ [] := by
  rw [ResolveWithTrace]
  cases hsplit : splitPath p with
  | error err => intro h; simp at h
  | ok segments =>
      cases hlay : o.layers with
      | nil =>
          cases hget : o.Get p with
          | error err => intro h; simp at h
          | ok v => intro _; simp
      | cons l0 rest =>
          simp only
          cases hw : (resolveAcross p segments (l0 :: rest)).1 with
          | some v => intro _; simp [hw, resolveAcross]
          | none =>
              simp only [hw]
              cases hget : o.Get p with
              | error err => intro h; simp at h
              | ok v => intro _; simp [resolveAcross]

/-- A successful flatten loop records, for each path in order, the first
found provenance entry of that path's trace, or the last layer's entry as
fallback; and every path in the loop resolved without error. -/
theorem flattenLoop_ok (o : Options) : (ps : List String) → (res : List Provenance) →
    flattenLoop o ps = .ok res →
    res = ps.map (fun p =>
      ((ResolveWithTrace (some o) p).trace.layers.find? (fun e => e.found)).getD
        ((ResolveWithTrace (some o) p).trace.layers.getLastD
          (Provenance.mk zeroScope ("") p .vNull false))) ∧
    ∀ p ∈ ps, (ResolveWithTrace (some o) p).err = none
  | [], res, h => by
      simp only [flattenLoop] at h
      cases h
      simp
  | p :: rest, res, h => by
      rw [flattenLoop] at h
      cases herr : (ResolveWithTrace (some o) p).err with
      | some e => rw [herr] at h; cases h
      | none =>
          rw [herr] at h
          cases hrec : flattenLoop o rest with
          | error e => rw [hrec] at h; cases h
          | ok acc =>
              rw [hrec] at h
              obtain ⟨ih1, ih2⟩ := flattenLoop_ok o rest acc hrec
              have hmem : ∀ q ∈ p :: rest, (ResolveWithTrace (some o) q).err = none := by
                intro q hq
                rcases List.mem_cons.mp hq with hq | hq
                · exact hq ▸ herr
                · exact ih2 q hq
              cases hfind : (ResolveWithTrace (some o) p).trace.layers.find?
                  (fun e => e.found) with
              | some entry =>
                  rw [hfind] at h
                  cases h
                  exact ⟨by simp [hfind, ih1], hmem⟩
              | none =>
                  rw [hfind] at h
                  cases hlast : (ResolveWithTrace (some o) p).trace.layers.getLast? with
                  | some entry =>
                      rw [hlast] at h
                      cases h
                      refine ⟨?_, hmem⟩
                      simp only [List.map_cons, hfind, Option.getD_none]
                      rw [List.getLastD_eq_getLast?, hlast, ih1]
                      simp
                  | none =>
                      exfalso
                      exact resolveWithTrace_layers_ne_nil o p herr (by simpa using hlast)

/-- C8: when `FlattenWithProvenance` succeeds on a wrapper, it returns
exactly one provenance entry per distinct leaf path of the merged value,
each with a non-empty path, and for each leaf path the recorded entry is
the first `found` entry of that path's trace, or the last layer's entry as
best-effort fallback when no layer was found. -/
theorem flattenWithProvenance_complete (o : Options) (res : List Provenance)
    (h : FlattenWithProvenance (some o) = .ok res) :
    res.length = (collectPaths o.value).length ∧
    (∀ e ∈ res, e.path ≠ "") ∧
    res = (collectPaths o.value).map (fun p =>
      ((ResolveWithTrace (some o) p).trace.layers.find? (fun e => e.found)).getD
        ((ResolveWithTrace (some o) p).trace.layers.getLastD
          (Provenance.mk zeroScope ("") p .vNull false))) := by
  rw [FlattenWithProvenance] at h
  obtain ⟨hres, herr⟩ := flattenLoop_ok o (collectPaths o.value) res h
  refine ⟨by rw [hres, List.length_map], ?_, hres⟩
  intro e he
  rw [hres] at he
  obtain ⟨p, hp, hpe⟩ := List.mem_map.mp he
  have hpne : p ≠ "" := collectPaths_ne_empty o.value p hp
  have hnn : (ResolveWithTrace (some o) p).trace.layers ≠ [] :=
    resolveWithTrace_layers_ne_nil o p (herr p hp)
  have hepath : e.path = p := by
    cases hfind : (ResolveWithTrace (some o) p).trace.layers.find? (fun x => x.found) with
    | some entry =>
        rw [hfind] at hpe
        simp only [Option.getD_some] at hpe
        exact hpe ▸ resolveWithTrace_entry_path o p entry (List.mem_of_find?_eq_some hfind)
    | none =>
        rw [hfind] at hpe
        simp only [Option.getD_none] at hpe
        cases hlay : (ResolveWithTrace (some o) p).trace.layers with
        | nil => exact absurd hlay hnn
        | cons l0 rest =>
            have hmem : (ResolveWithTrace (some o) p).trace.layers.getLastD
                (Provenance.mk zeroScope ("") p .vNull false) ∈
                (ResolveWithTrace (some o) p).trace.layers := by
              rw [List.getLastD_eq_getLast?, hlay]
              cases hl : (l0 :: rest).getLast? with
              | none => simp at hl
              | some x =>
                  simp only [Option.getD_some]
                  obtain ⟨hne2, hx⟩ :=
                    List.mem_getLast?_eq_getLast (Option.mem_def.mpr hl)
                  rw [hx]
                  exact List.getLast_mem hne2
            exact hpe ▸ resolveWithTrace_entry_path o p _ hmem
  rw [hepath]
  exact hpne

/-- Defaults layer of the flatten example: two limits. -/
def flDefaults : LayerV :=
  NewLayer (NewScope ("defaults") 10)
    (.vMap (.cons "Limits"
      (.vMap (.cons "daily" (.vInt 100) (.cons "monthly" (.vInt 500) .nil))) .nil)) ("")

/-- User layer of the flatten example: overrides the daily limit. -/
def flUser : LayerV :=
  NewLayer (NewScope ("user") 20)
    (.vMap (.cons "Limits" (.vMap (.cons "daily" (.vInt 50) .nil)) .nil)) ("")

/-- Merged wrapper of the flatten example. -/
def flOptions : Options :=
  match (match NewStack [flDefaults, flUser] with
         | .ok s => s
         | .error _ => Stack.mk []).Merge with
  | .ok o => o
  | .error _ => NewOptions .vNull

/-- The flatten example's results. -/
def flResults : List Provenance :=
  match FlattenWithProvenance (some flOptions) with
  | .ok r => r
  | .error _ => []

/-- Witness for C8 at the flatten example. -/
theorem flattenWithProvenance_complete_witness :
    FlattenWithProvenance (some flOptions) = .ok flResults ∧
    (flResults.length = (collectPaths flOptions.value).length ∧
      (∀ e ∈ flResults, e.path ≠ "") ∧
      flResults = (collectPaths flOptions.value).map (fun p =>
        ((ResolveWithTrace (some flOptions) p).trace.layers.find? (fun e => e.found)).getD
          ((ResolveWithTrace (some flOptions) p).trace.layers.getLastD
            (Provenance.mk zeroScope ("") p .vNull false)))) :=
  ⟨by decide, flattenWithProvenance_complete flOptions flResults (by decide)⟩

mutual
/-- Decoding inverts encoding on JSON-normal values. -/
theorem decode_encode_normal : (v : Value) → jsonNormal v = true →
    decodeValue (encodeValue v) = v
  | .vNull, _ => rfl
  | .vBool _, _ => rfl
  | .vFloat _, _ => rfl
  | .vStr _, _ => rfl
  | .vInt _, h => by simp [jsonNormal] at h
  | .vPtrNil, h => by simp [jsonNormal] at h
  | .vPtr _, h => by simp [jsonNormal] at h
  | .vMapNil, h => by simp [jsonNormal] at h
  | .vSliceNil, h => by simp [jsonNormal] at h
  | .vArr _, h => by simp [jsonNormal] at h
  | .vStruct _, h => by simp [jsonNormal] at h
  | .vSlice l, h => by
      rw [encodeValue, decodeValue,
        decode_encode_normal_elems l (by simpa [jsonNormal] using h)]
  | .vMap m, h => by
      rw [encodeValue, decodeValue,
        decode_encode_normal_entries m (by simpa [jsonNormal] using h)]

/-- Element-wise inversion on JSON-normal elements. -/
theorem decode_encode_normal_elems : (l : Elems) → jsonNormalElems l = true →
    decodeElems (encodeElems l) = l
  | .nil, _ => rfl
  | .cons v rest, h => by
      obtain ⟨h1, h2⟩ := Bool.and_eq_true_iff.mp (by simpa [jsonNormalElems] using h)
      rw [encodeElems, decodeElems, decode_encode_normal v h1,
        decode_encode_normal_elems rest h2]

/-- Entry-wise inversion on JSON-normal entries. -/
theorem decode_encode_normal_entries : (m : Entries) → jsonNormalEntries m = true →
    decodeEntries (encodeEntries m) = m
  | .nil, _ => rfl
  | .cons k v rest, h => by
      obtain ⟨h1, h2⟩ := Bool.and_eq_true_iff.mp (by simpa [jsonNormalEntries] using h)
      rw [encodeEntries, decodeEntries, decode_encode_normal v h1,
        decode_encode_normal_entries rest h2]
end

/-- The scope shape that comes back from a JSON round trip: name, label
and priority survive; metadata is re-read as a decoded object. -/
def normScopeJSON (s : Scope) : Scope :=
  Scope.mk s.name s.label s.priority
    (match s.metadata with
     | .nil => Entries.nil
     | m => decodeEntries (encodeEntries m))

/-- The provenance shape that comes back from a JSON round trip. -/
def normProvJSON (e : Provenance) : Provenance :=
  Provenance.mk (normScopeJSON e.scope) e.snapshotID e.path
    (decodeValue (encodeValue e.value)) e.found

/-- Unmarshalling inverts marshalling on a scope, up to metadata
re-reading. -/
theorem decodeScope_scopeToJSON (s : Scope) :
    decodeScope (scopeToJSON s) = some (normScopeJSON s) := by
  cases hmd : s.metadata with
  | nil =>
      simp [scopeToJSON, decodeScope, decodeStringField, jObjLookup, listToJObj, hmd,
        Rat.den_intCast, Rat.num_intCast, normScopeJSON]
  | cons k v rest =>
      simp [scopeToJSON, decodeScope, decodeStringField, jObjLookup, listToJObj, hmd,
        Rat.den_intCast, Rat.num_intCast, normScopeJSON]

/-- Unmarshalling inverts marshalling on one provenance entry, up to JSON
value normalisation. -/
theorem decodeProv_provToJSON (e : Provenance) :
    decodeProv (provToJSON e) = some (normProvJSON e) := by
  by_cases hsid : e.snapshotID = ""
  · cases hv : e.value <;>
      simp [provToJSON, decodeProv, decodeStringField, jObjLookup, listToJObj, hsid, hv,
        decodeScope_scopeToJSON, normProvJSON, decodeValue, encodeValue]
  · cases hv : e.value <;>
      simp [provToJSON, decodeProv, decodeStringField, jObjLookup, listToJObj, hsid, hv,
        decodeScope_scopeToJSON, normProvJSON, decodeValue, encodeValue]

/-- Unmarshalling inverts marshalling on the layer list, entry by
entry. -/
theorem decodeProvList_jarr : (ls : List Provenance) →
    decodeProvList (jarrOfList (ls.map provToJSON)) = some (ls.map normProvJSON)
  | [] => rfl
  | e :: rest => by
      simp only [List.map_cons, jarrOfList, decodeProvList, decodeProv_provToJSON e,
        decodeProvList_jarr rest]

/-- C9 (amended): serialising a trace with `ToJSON` and reading the
payload back with `TraceFromJSON` always succeeds and — for every trace —
preserves the path and every entry's scope name, snapshot id and found
flag exactly; the entry values are additionally preserved exactly when
they are all JSON-normal (strings, booleans, null, float-read numbers,
and arrays/string-keyed maps of such) — other values come back
JSON-normalised, e.g. every Go int decodes as a float64. -/
theorem traceJSON_roundtrip_normal (t : Trace) :
    (TraceFromJSON t.ToJSON).isSome = true ∧
    ∀ t2, TraceFromJSON t.ToJSON = some t2 →
      t2.path = t.path ∧
      t2.layers.map (fun e => (e.scope.name, e.snapshotID, e.found)) =
        t.layers.map (fun e => (e.scope.name, e.snapshotID, e.found)) ∧
      ((∀ e ∈ t.layers, jsonNormal e.value = true) →
        t2.layers.map (fun e => e.value) = t.layers.map (fun e => e.value)) := by
  have hd : TraceFromJSON t.ToJSON = some (Trace.mk t.path (t.layers.map normProvJSON)) := by
    cases hls : t.layers with
    | nil =>
        simp [Trace.ToJSON, TraceFromJSON, decodeStringField, jObjLookup, listToJObj, hls]
    | cons e rest =>
        have hl := decodeProvList_jarr (e :: rest)
        simp only [List.map_cons] at hl
        simp [Trace.ToJSON, TraceFromJSON, decodeStringField, jObjLookup, listToJObj, hls, hl]
  refine ⟨by rw [hd]; rfl, ?_⟩
  intro t2 ht2
  rw [hd] at ht2
  cases ht2
  refine ⟨rfl, ?_, ?_⟩
  · rw [List.map_map]
    apply List.map_congr_left
    intro e _
    simp only [Function.comp, normProvJSON, normScopeJSON]
  · intro h
    rw [List.map_map]
    apply List.map_congr_left
    intro e he
    simp only [Function.comp, normProvJSON, decode_encode_normal e.value (h e he)]

/-- Trace whose single provenance entry carries the Go int 42. -/
def intTrace : Trace :=
  Trace.mk ("limit")
    [Provenance.mk (Scope.mk ("user") ("") 0 .nil) ("") ("limit") (.vInt 42) true]

/-- C9 counterexample: round-tripping a trace whose entry value is the Go
int 42 yields the float64 42 — a different value — so values are not
preserved exactly for every trace. -/
theorem traceJSON_int_not_preserved :
    (TraceFromJSON intTrace.ToJSON).map (fun t => t.layers.map (fun e => e.value)) =
      some [Value.vFloat 42] ∧
    intTrace.layers.map (fun e => e.value) = [Value.vInt 42] ∧
    (Value.vFloat 42 : Value) ≠ Value.vInt 42 := by
  refine ⟨by decide, by decide, by decide⟩

/-- Trace whose single provenance entry carries a JSON-normal boolean. -/
def boolTrace : Trace :=
  Trace.mk ("feature.enabled")
    [Provenance.mk (Scope.mk ("user") ("") 0 .nil) ("") ("feature.enabled") (.vBool true) true]

/-- Witness for the amended C9 at a concrete JSON-normal trace (the inner
normality hypothesis holds there by computation). -/
theorem traceJSON_roundtrip_normal_witness :
    (∀ e ∈ boolTrace.layers, jsonNormal e.value = true) ∧
    ((TraceFromJSON boolTrace.ToJSON).isSome = true ∧
      ∀ t2, TraceFromJSON boolTrace.ToJSON = some t2 →
        t2.path = boolTrace.path ∧
        t2.layers.map (fun e => (e.scope.name, e.snapshotID, e.found)) =
          boolTrace.layers.map (fun e => (e.scope.name, e.snapshotID, e.found)) ∧
        ((∀ e ∈ boolTrace.layers, jsonNormal e.value = true) →
          t2.layers.map (fun e => e.value) = boolTrace.layers.map (fun e => e.value))) :=
  ⟨by decide, traceJSON_roundtrip_normal boolTrace⟩
